import Mathlib

/-
Verification of the pairwise ranker trainer (tools/train_ranker.py) and its
data-marshalling adapters (tools/make_applicants_jsonl.py).

The trainer is embedded over the real numbers: Python floats become reals,
math.exp and math.log1p become Real.exp and Real.log (1 + x).  The feature
map (a Python dict) is embedded as a function String → Option (List ℝ);
a fatal SystemExit is embedded as Except.error.
-/

namespace Ranker

/-- A labeled pair (i, j, y) as produced by load_pairs_csv: two identifiers
and an integer label. -/
abbrev Pair : Type := String × String × ℤ

/-- Embeds dot(a, b): sum(x*y for x, y in zip(a, b)). zip truncates to the
shorter list, as Python zip does. -/
noncomputable def dot (a b : List ℝ) : ℝ :=
  (List.zipWith (fun x y => x * y) a b).sum

/-- The mutable per-epoch state of train: weights w, bias b, the accumulated
loss, and the used-pair count n. -/
structure StepState where
  w : List ℝ
  b : ℝ
  loss : ℝ
  n : ℕ

/-- Embeds line 78 of train: y = 1.0 if y01 == 1 else -1.0. -/
def bipolar (y01 : ℤ) : ℝ :=
  if y01 = 1 then 1 else -1

/-- Embeds line 79 of train: the elementwise difference dx = xi - xj
(zip truncates to the shorter list, as Python zip does). -/
noncomputable def dxOf (xi xj : List ℝ) : List ℝ :=
  List.zipWith (fun a b => a - b) xi xj

/-- Embeds the three-way numerically stable branch of train (lines 83-91):
given the signed margin z, returns the pair (ell, sig) of the per-pair loss
contribution and the gradient-sigmoid term. -/
noncomputable def lossSig (z : ℝ) : ℝ × ℝ :=
  if z > 35 then (0, 0)
  else if z < -35 then (-z, 1)
  else (Real.log (1 + Real.exp (-z)), 1 / (1 + Real.exp z))

/-- Embeds the body of the pair loop of train (lines 78-99) once a pair is
known usable: from the bipolar target y and the difference vector dx, form
the margin s = w·dx + b and signed margin z = y*s, take (ell, sig) from the
stable branch, accumulate loss and count, and apply the SGD update
w[k] -= lr*(gscale*dx[k] + l2*w[k]) for k in range(dim), b -= lr*gscale,
with gscale = -y*sig. -/
noncomputable def updateState (dim : ℕ) (lr l2 : ℝ) (st : StepState)
    (y : ℝ) (dx : List ℝ) : StepState :=
  let s := dot st.w dx + st.b
  let z := y * s
  let es := lossSig z
  let gscale := -y * es.2
  { w := (List.range dim).map
      (fun k => st.w.getD k 0 - lr * (gscale * dx.getD k 0 + l2 * st.w.getD k 0)),
    b := st.b - lr * gscale,
    loss := st.loss + es.1,
    n := st.n + 1 }

/-- Embeds one iteration of the inner pair loop of train (lines 72-99):
look both identifiers up in the feature map, skip the pair if either is
absent, otherwise run the update body. -/
noncomputable def stepPair (id2x : String → Option (List ℝ)) (dim : ℕ)
    (lr l2 : ℝ) (st : StepState) (p : Pair) : StepState :=
  match id2x p.1, id2x p.2.1 with
  | some xi, some xj => updateState dim lr l2 st (bipolar p.2.2) (dxOf xi xj)
  | _, _ => st

/-- Embeds one epoch of train: fold stepPair over the pairs list in input
order, starting from the current weights and bias with loss 0 and count 0. -/
noncomputable def runEpoch (id2x : String → Option (List ℝ)) (dim : ℕ)
    (lr l2 : ℝ) (w : List ℝ) (b : ℝ) (pairs : List Pair) : StepState :=
  pairs.foldl (stepPair id2x dim lr l2) ⟨w, b, 0, 0⟩

/-- The message of the SystemExit raised by train when an epoch uses no
pairs (line 102). -/
def noUsableMsg : String := "No usable pairs (IDs not found in applicants.jsonl?)."

/-- Embeds the epoch loop of train: run the remaining number of epochs from
the given weights and bias; after each epoch, abort when the epoch used zero
pairs, otherwise continue with the updated state. -/
noncomputable def trainGo (id2x : String → Option (List ℝ)) (pairs : List Pair)
    (dim : ℕ) (lr l2 : ℝ) : ℕ → List ℝ → ℝ → Except String (List ℝ × ℝ)
  | 0, w, b => Except.ok (w, b)
  | Nat.succ m, w, b =>
    if (runEpoch id2x dim lr l2 w b pairs).n = 0 then Except.error noUsableMsg
    else trainGo id2x pairs dim lr l2 m
      (runEpoch id2x dim lr l2 w b pairs).w (runEpoch id2x dim lr l2 w b pairs).b

/-- Embeds train (lines 65-107): start from the zero model w = [0]*dim,
b = 0 and run the epoch loop. -/
noncomputable def train (id2x : String → Option (List ℝ)) (pairs : List Pair)
    (dim : ℕ) (lr : ℝ) (epochs : ℕ) (l2 : ℝ) : Except String (List ℝ × ℝ) :=
  trainGo id2x pairs dim lr l2 epochs (List.replicate dim 0) 0

/-- The concrete two-identifier feature map of the spec scenario:
"a" ↦ [1,0] and "b" ↦ [0,1]. -/
noncomputable def demoMap : String → Option (List ℝ) :=
  fun s => if s = "a" then some [1, 0] else if s = "b" then some [0, 1] else none

/-- A pair is usable when both of its identifiers resolve in the feature
map (the negation of the skip test on lines 73-76). -/
def usableB (id2x : String → Option (List ℝ)) (p : Pair) : Bool :=
  (id2x p.1).isSome && (id2x p.2.1).isSome

/-- Embeds round(x, 12): rounding to 12 decimal digits.  Mathlib's round is
used for the nearest-integer step; Python resolves exact ties to the even
digit, a set of inputs none of the claims touch. -/
noncomputable def round12 (x : ℝ) : ℝ :=
  round (x * 10 ^ 12) / 10 ^ 12

/-- The serialized model object written by save_model. -/
structure Model where
  feature_version : ℤ
  dim : ℕ
  weights : List ℝ
  bias : ℝ

/-- Embeds save_model (lines 110-117): dim is len(w), the weights and the
bias are rounded to 12 decimal digits. -/
noncomputable def save_model (fv : ℤ) (w : List ℝ) (b : ℝ) : Model :=
  { feature_version := fv, dim := w.length,
    weights := w.map round12, bias := round12 b }

/-- Embeds the per-row feature handling of make_applicants_jsonl.main
(lines 61-77), with parse_features and float() abstracted as parameters:
parsed is the result of parse_features on the features cell (none when it
returns None), coerce is elementwise float coercion (none when float(x)
raises).  A row is emitted only when the parsed list is non-empty
(Python: if not feats), every element coerces, and the coerced list has
exactly 21 entries. -/
def emitFeats {α β : Type} (parsed : Option (List α)) (coerce : α → Option β) :
    Option (List β) :=
  match parsed with
  | none => none
  | some fs =>
    if fs.isEmpty then none
    else match fs.mapM coerce with
      | none => none
      | some feats => if feats.length = 21 then some feats else none

/-- Embeds int(q) on a rational: Python int() truncates toward zero. -/
def truncInt (q : ℚ) : ℤ :=
  if 0 ≤ q then ⌊q⌋ else ⌈q⌉

/-- Embeds one row of load_pairs_csv (lines 45-57), with the CSV field
extraction and Python float parsing abstracted: i and j are the stringified
identifier fields, and y? is the rational value of the label field when it
parses as a float (none when float(y) raises).  The row is kept when both
identifiers are non-empty and int(float(y)) lands in {0, 1}. -/
def load_pairs_row (i j : String) (y? : Option ℚ) : Option Pair :=
  if i = "" ∨ j = "" then none
  else
    match y? with
    | none => none
    | some q =>
      if truncInt q = 0 ∨ truncInt q = 1 then some (i, j, truncInt q) else none

/-- One JSONL record as seen by load_applicants_jsonl: id? is none when the
object has no "id" field or a null one, and features? is none when the
"features" field is not a list. -/
structure AppLine where
  id? : Option String
  features? : Option (List ℝ)

/-- Embeds str(obj.get("id")) for the shapes the loader distinguishes: a
missing or null id stringifies to the literal "None", a string id to
itself. -/
def idString : Option String → String
  | none => "None"
  | some s => s

/-- Embeds one iteration of the line loop of load_applicants_jsonl
(lines 28-37): skip when the stringified id is empty or the features field
is not a list, otherwise store the features under the stringified id,
overwriting any earlier entry. -/
def loadLine (m : String → Option (List ℝ)) (ln : AppLine) :
    String → Option (List ℝ) :=
  match ln.features? with
  | some x =>
    if idString ln.id? = "" then m
    else fun s => if s = idString ln.id? then some x else m s
  | none => m

/-- Embeds load_applicants_jsonl (lines 25-38): fold the line handler over
the records in file order, starting from the empty map. -/
def load_applicants_jsonl (lines : List AppLine) : String → Option (List ℝ) :=
  lines.foldl loadLine (fun _ => none)

end Ranker

namespace Ranker

/-- On a pair whose identifiers both resolve, stepPair runs the update body. -/
lemma stepPair_usable (id2x : String → Option (List ℝ)) (dim : ℕ) (lr l2 : ℝ)
    (st : StepState) (i j : String) (y01 : ℤ) (xi xj : List ℝ)
    (hi : id2x i = some xi) (hj : id2x j = some xj) :
    stepPair id2x dim lr l2 st (i, j, y01) =
      updateState dim lr l2 st (bipolar y01) (dxOf xi xj) := by
  simp only [stepPair, hi, hj]

/-- On a pair with at least one unresolved identifier, stepPair is the
identity. -/
lemma stepPair_skip (id2x : String → Option (List ℝ)) (dim : ℕ) (lr l2 : ℝ)
    (st : StepState) (p : Pair)
    (h : id2x p.1 = none ∨ id2x p.2.1 = none) :
    stepPair id2x dim lr l2 st p = st := by
  rcases hi : id2x p.1 with _ | xi <;> rcases hj : id2x p.2.1 with _ | xj
  · simp only [stepPair, hi, hj]
  · simp only [stepPair, hi, hj]
  · simp only [stepPair, hi, hj]
  · rw [hi, hj] at h
    rcases h with h | h <;> exact absurd h (by simp)

/-- stepPair increments the used-pair count exactly on usable pairs. -/
lemma stepPair_n (id2x : String → Option (List ℝ)) (dim : ℕ) (lr l2 : ℝ)
    (st : StepState) (p : Pair) :
    (stepPair id2x dim lr l2 st p).n =
      st.n + (if usableB id2x p then 1 else 0) := by
  rcases hi : id2x p.1 with _ | xi <;> rcases hj : id2x p.2.1 with _ | xj <;>
    simp [stepPair, usableB, hi, hj, updateState]

/-- A folded epoch adds the number of usable pairs to the count. -/
lemma foldl_stepPair_n (id2x : String → Option (List ℝ)) (dim : ℕ) (lr l2 : ℝ)
    (pairs : List Pair) : ∀ st : StepState,
    (pairs.foldl (stepPair id2x dim lr l2) st).n =
      st.n + pairs.countP (usableB id2x) := by
  induction pairs with
  | nil => intro st; simp
  | cons p rest ih =>
    intro st
    rw [List.foldl_cons, ih, stepPair_n, List.countP_cons]
    by_cases hu : usableB id2x p = true
    · rw [if_pos hu]
      omega
    · rw [if_neg hu]
      omega

/-- The count reported by an epoch is the number of usable pairs, whatever
the incoming weights and bias. -/
lemma runEpoch_n (id2x : String → Option (List ℝ)) (dim : ℕ) (lr l2 : ℝ)
    (w : List ℝ) (b : ℝ) (pairs : List Pair) :
    (runEpoch id2x dim lr l2 w b pairs).n = pairs.countP (usableB id2x) := by
  simp [runEpoch, foldl_stepPair_n]

/-- A pair is unusable exactly when one of its lookups is none. -/
lemma usableB_eq_false (id2x : String → Option (List ℝ)) (p : Pair) :
    usableB id2x p = false ↔ (id2x p.1 = none ∨ id2x p.2.1 = none) := by
  rcases hi : id2x p.1 with _ | xi <;> rcases hj : id2x p.2.1 with _ | xj <;>
    simp [usableB, hi, hj]

/-- Folding over pairs that are all unusable leaves the state untouched. -/
lemma foldl_stepPair_all_skip (id2x : String → Option (List ℝ)) (dim : ℕ)
    (lr l2 : ℝ) (pairs : List Pair)
    (h : ∀ p ∈ pairs, id2x p.1 = none ∨ id2x p.2.1 = none) :
    ∀ st : StepState, pairs.foldl (stepPair id2x dim lr l2) st = st := by
  induction pairs with
  | nil => intro st; rfl
  | cons p rest ih =>
    intro st
    rw [List.foldl_cons, stepPair_skip id2x dim lr l2 st p (h p (by simp))]
    exact ih (fun q hq => h q (by simp [hq])) st

/-- trainGo returns an error exactly when at least one epoch runs and the
pairs list has no usable pair; the message is then the fatal one. -/
lemma trainGo_error_iff (id2x : String → Option (List ℝ)) (pairs : List Pair)
    (dim : ℕ) (lr l2 : ℝ) : ∀ (epochs : ℕ) (w : List ℝ) (b : ℝ) (e : String),
    trainGo id2x pairs dim lr l2 epochs w b = Except.error e ↔
      (1 ≤ epochs ∧ pairs.countP (usableB id2x) = 0 ∧ e = noUsableMsg) := by
  intro epochs
  induction epochs with
  | zero => intro w b e; simp [trainGo]
  | succ m ih =>
    intro w b e
    rw [trainGo]
    by_cases h : pairs.countP (usableB id2x) = 0
    · rw [if_pos (by rw [runEpoch_n]; exact h)]
      constructor
      · intro he
        refine ⟨Nat.succ_le_succ (Nat.zero_le m), h, ?_⟩
        injection he with h2
        exact h2.symm
      · rintro ⟨-, -, rfl⟩
        rfl
    · rw [if_neg (by rw [runEpoch_n]; exact h)]
      rw [ih]
      constructor
      · rintro ⟨-, hc, -⟩
        exact absurd hc h
      · rintro ⟨-, hc, -⟩
        exact absurd hc h

end Ranker

namespace Ranker

/-- C1: with dim=2, the feature map a ↦ [1,0], b ↦ [0,1], the single pair
(a,b,1), lr=0.1, epochs=1, l2=0, training from the zero model returns
exactly w = [0.05, -0.05] and b = 0.05. -/
theorem train_demo_scenario :
    train demoMap [("a", "b", 1)] 2 0.1 1 0 =
      Except.ok ([0.05, -0.05], 0.05) := by
  have ha : demoMap "a" = some [1, 0] := by simp [demoMap]
  have hb : demoMap "b" = some [0, 1] := by simp [demoMap]
  have hstep := stepPair_usable demoMap 2 0.1 0 ⟨[0, 0], 0, 0, 0⟩ "a" "b" 1
    [1, 0] [0, 1] ha hb
  have hrun : runEpoch demoMap 2 0.1 0 [0, 0] 0 [("a", "b", 1)] =
      updateState 2 0.1 0 ⟨[0, 0], 0, 0, 0⟩ (bipolar 1) (dxOf [1, 0] [0, 1]) := by
    simp only [runEpoch, List.foldl, hstep]
  have hupd : updateState 2 0.1 0 ⟨[0, 0], 0, 0, 0⟩ (bipolar 1) (dxOf [1, 0] [0, 1]) =
      { w := [0.05, -0.05], b := 0.05,
        loss := Real.log (1 + Real.exp (-0)), n := 1 } := by
    simp only [updateState, bipolar, dxOf, dot, lossSig, List.zipWith,
      List.sum_cons, List.sum_nil, List.range_succ, List.range_zero, List.map,
      List.getD, List.nil_append, List.cons_append, List.getElem?_cons_zero,
      List.getElem?_cons_succ, Option.getD_some]
    norm_num [Real.exp_zero]
  show trainGo demoMap [("a", "b", 1)] 2 0.1 0 1 (List.replicate 2 0) 0 =
      Except.ok ([0.05, -0.05], 0.05)
  rw [show List.replicate 2 (0 : ℝ) = [0, 0] from rfl]
  simp only [trainGo, hrun, hupd]
  norm_num

/-- C2: on a usable pair, the trainer's update sets every weight coordinate
k to w[k] - lr*((-y*sig)*dx[k] + l2*w[k]) and the bias to b - lr*(-y*sig)
with no L2 term on the bias, and the updated state is the one the fold
passes to the rest of the pairs list. -/
theorem stepPair_update_formula (id2x : String → Option (List ℝ)) (dim : ℕ)
    (lr l2 : ℝ) (st : StepState) (i j : String) (y01 : ℤ) (xi xj : List ℝ)
    (hi : id2x i = some xi) (hj : id2x j = some xj) :
    (stepPair id2x dim lr l2 st (i, j, y01)).w =
      (List.range dim).map (fun k =>
        st.w.getD k 0 -
          lr * ((-(bipolar y01) *
              (lossSig (bipolar y01 * (dot st.w (dxOf xi xj) + st.b))).2) *
              (dxOf xi xj).getD k 0 + l2 * st.w.getD k 0)) ∧
    (stepPair id2x dim lr l2 st (i, j, y01)).b =
      st.b - lr * (-(bipolar y01) *
        (lossSig (bipolar y01 * (dot st.w (dxOf xi xj) + st.b))).2) ∧
    ∀ rest : List Pair,
      ((i, j, y01) :: rest).foldl (stepPair id2x dim lr l2) st =
        rest.foldl (stepPair id2x dim lr l2)
          (stepPair id2x dim lr l2 st (i, j, y01)) := by
  rw [stepPair_usable id2x dim lr l2 st i j y01 xi xj hi hj]
  refine ⟨rfl, rfl, fun rest => ?_⟩
  rw [List.foldl_cons, stepPair_usable id2x dim lr l2 st i j y01 xi xj hi hj]

/-- Witness for C2: the update formula evaluated on the concrete scenario
pair. -/
theorem stepPair_update_formula_witness :
    (stepPair demoMap 2 0.1 0 ⟨[0, 0], 0, 0, 0⟩ ("a", "b", 1)).b =
      (0 : ℝ) - 0.1 * (-(bipolar 1) *
        (lossSig (bipolar 1 * (dot [0, 0] (dxOf [1, 0] [0, 1]) + 0))).2) :=
  (stepPair_update_formula demoMap 2 0.1 0 ⟨[0, 0], 0, 0, 0⟩ "a" "b" 1
    [1, 0] [0, 1] (by simp [demoMap]) (by simp [demoMap])).2.1

/-- C3: the per-pair loss contribution and gradient-sigmoid term follow the
three-way stable branch: (0, 0) for z > 35, (-z, 1) for z < -35, and
(log(1 + exp(-z)), 1/(1 + exp z)) otherwise; in every branch the loss
contribution is a real number ≥ 0 and the sigmoid term a real number in
[0, 1], so no overflow value ever arises. -/
theorem lossSig_branch_spec (z : ℝ) :
    (z > 35 → lossSig z = (0, 0)) ∧
    (z < -35 → lossSig z = (-z, 1)) ∧
    (¬ z > 35 → ¬ z < -35 →
      lossSig z = (Real.log (1 + Real.exp (-z)), 1 / (1 + Real.exp z))) ∧
    (0 ≤ (lossSig z).1 ∧ 0 ≤ (lossSig z).2 ∧ (lossSig z).2 ≤ 1) := by
  refine ⟨?_, ?_, ?_, ?_⟩
  · intro h
    rw [lossSig, if_pos h]
  · intro h
    rw [lossSig, if_neg (show ¬ z > 35 by linarith), if_pos h]
  · intro h1 h2
    rw [lossSig, if_neg h1, if_neg h2]
  · unfold lossSig
    split_ifs with h1 h2
    · norm_num
    · refine ⟨show (0 : ℝ) ≤ -z by linarith, by norm_num, by norm_num⟩
    · refine ⟨Real.log_nonneg (by linarith [Real.exp_pos (-z)]), by positivity, ?_⟩
      rw [div_le_one (by positivity)]
      linarith [Real.exp_pos z]

/-- Witness for C3: the branch values at the concrete margins 36 and -36. -/
theorem lossSig_branch_spec_witness :
    (36 : ℝ) > 35 ∧ lossSig 36 = (0, 0) ∧
      (-36 : ℝ) < -35 ∧ lossSig (-36) = (-(-36), 1) :=
  ⟨by norm_num, (lossSig_branch_spec 36).1 (by norm_num),
   by norm_num, (lossSig_branch_spec (-36)).2.1 (by norm_num)⟩

/-- C4: when every pair misses the feature map, training fails with the
fatal message while the aborting epoch has made no weight or bias update;
conversely this is the only abort: any error from train is this message and
implies every pair was unusable. -/
theorem train_zero_usable_fatal :
    (∀ (id2x : String → Option (List ℝ)) (pairs : List Pair) (dim : ℕ)
        (lr l2 : ℝ) (epochs : ℕ), 1 ≤ epochs →
      (∀ p ∈ pairs, id2x p.1 = none ∨ id2x p.2.1 = none) →
      (train id2x pairs dim lr epochs l2 = Except.error noUsableMsg ∧
        runEpoch id2x dim lr l2 (List.replicate dim 0) 0 pairs =
          ⟨List.replicate dim 0, 0, 0, 0⟩)) ∧
    (∀ (id2x : String → Option (List ℝ)) (pairs : List Pair) (dim : ℕ)
        (lr l2 : ℝ) (epochs : ℕ) (e : String),
      train id2x pairs dim lr epochs l2 = Except.error e →
      (e = noUsableMsg ∧ ∀ p ∈ pairs, id2x p.1 = none ∨ id2x p.2.1 = none)) := by
  constructor
  · intro id2x pairs dim lr l2 epochs hep hall
    have hcount : pairs.countP (usableB id2x) = 0 := by
      rw [List.countP_eq_zero]
      intro p hp
      rw [Bool.not_eq_true, usableB_eq_false]
      exact hall p hp
    constructor
    · rw [train, trainGo_error_iff]
      exact ⟨hep, hcount, rfl⟩
    · rw [runEpoch]
      exact foldl_stepPair_all_skip id2x dim lr l2 pairs hall
        ⟨List.replicate dim 0, 0, 0, 0⟩
  · intro id2x pairs dim lr l2 epochs e htrain
    rw [train, trainGo_error_iff] at htrain
    obtain ⟨-, hcount, he⟩ := htrain
    refine ⟨he, fun p hp => ?_⟩
    rw [← usableB_eq_false]
    have hnp := List.countP_eq_zero.mp hcount p hp
    exact Bool.eq_false_iff.mpr hnp

/-- Witness for C4: a feature map resolving nothing makes training of one
concrete pair abort with the fatal message and an untouched state. -/
theorem train_zero_usable_fatal_witness :
    train (fun _ => none) [("a", "b", 1)] 2 0.1 1 0 = Except.error noUsableMsg ∧
      runEpoch (fun _ => none) 2 0.1 0 (List.replicate 2 0) 0 [("a", "b", 1)] =
        ⟨List.replicate 2 0, 0, 0, 0⟩ :=
  train_zero_usable_fatal.1 (fun _ => none) [("a", "b", 1)] 2 0.1 0 1
    (by norm_num) (fun p _ => Or.inl rfl)

/-- C5: a pair with an identifier missing from the feature map is skipped
without failing: weights, bias, accumulated loss and used-pair count are
unchanged, and the fold continues with the remaining pairs from the same
state. -/
theorem stepPair_skips_missing (id2x : String → Option (List ℝ)) (dim : ℕ)
    (lr l2 : ℝ) (st : StepState) (i j : String) (y01 : ℤ)
    (h : id2x i = none ∨ id2x j = none) :
    (stepPair id2x dim lr l2 st (i, j, y01)).w = st.w ∧
    (stepPair id2x dim lr l2 st (i, j, y01)).b = st.b ∧
    (stepPair id2x dim lr l2 st (i, j, y01)).loss = st.loss ∧
    (stepPair id2x dim lr l2 st (i, j, y01)).n = st.n ∧
    ∀ rest : List Pair,
      ((i, j, y01) :: rest).foldl (stepPair id2x dim lr l2) st =
        rest.foldl (stepPair id2x dim lr l2) st := by
  have hs := stepPair_skip id2x dim lr l2 st (i, j, y01) h
  rw [hs]
  exact ⟨rfl, rfl, rfl, rfl, fun rest => by rw [List.foldl_cons, hs]⟩

/-- Witness for C5: a concrete skipped pair leaves the count unchanged. -/
theorem stepPair_skips_missing_witness :
    (stepPair (fun _ => none) 2 0.1 0 ⟨[0, 0], 0, 0, 0⟩ ("a", "b", 1)).n =
      (⟨[0, 0], 0, 0, 0⟩ : StepState).n :=
  (stepPair_skips_missing (fun _ => none) 2 0.1 0 ⟨[0, 0], 0, 0, 0⟩ "a" "b" 1
    (Or.inl rfl)).2.2.2.1

/-- C6: training is deterministic: identical feature map, pairs list and
hyperparameters give identical results. -/
theorem train_deterministic
    (id2xA id2xB : String → Option (List ℝ)) (pairsA pairsB : List Pair)
    (dimA dimB : ℕ) (lrA lrB : ℝ) (epochsA epochsB : ℕ) (l2A l2B : ℝ)
    (hmap : id2xA = id2xB) (hpairs : pairsA = pairsB) (hdim : dimA = dimB)
    (hlr : lrA = lrB) (hepochs : epochsA = epochsB) (hl2 : l2A = l2B) :
    train id2xA pairsA dimA lrA epochsA l2A =
      train id2xB pairsB dimB lrB epochsB l2B := by
  rw [hmap, hpairs, hdim, hlr, hepochs, hl2]

/-- Witness for C6: two runs of the concrete scenario coincide. -/
theorem train_deterministic_witness :
    train demoMap [("a", "b", 1)] 2 0.1 1 0 =
      train demoMap [("a", "b", 1)] 2 0.1 1 0 :=
  train_deterministic demoMap demoMap [("a", "b", 1)] [("a", "b", 1)]
    2 2 0.1 0.1 1 1 0 0 rfl rfl rfl rfl rfl rfl

/-- C7: the serialized model carries the integer feature_version, a dim
field equal to the length of its weights array, the weights rounded
entrywise to 12 decimal digits, and the bias rounded likewise. -/
theorem save_model_schema (fv : ℤ) (w : List ℝ) (b : ℝ) :
    (save_model fv w b).feature_version = fv ∧
    (save_model fv w b).dim = w.length ∧
    (save_model fv w b).dim = (save_model fv w b).weights.length ∧
    (save_model fv w b).weights = w.map round12 ∧
    (save_model fv w b).bias = round12 b := by
  refine ⟨rfl, rfl, ?_, rfl, rfl⟩
  simp [save_model]

/-- C8: every record the feature-map adapter emits has exactly 21 feature
entries; rows whose features cell does not parse, does not coerce, or has
the wrong length never reach the output. -/
theorem emitted_features_length {α β : Type} (parsed : Option (List α))
    (coerce : α → Option β) (feats : List β)
    (h : emitFeats parsed coerce = some feats) : feats.length = 21 := by
  rcases parsed with _ | fs
  · exact absurd h (by simp [emitFeats])
  · simp only [emitFeats] at h
    by_cases he : fs.isEmpty
    · rw [if_pos he] at h
      exact absurd h (by simp)
    · rw [if_neg he] at h
      rcases hm : fs.mapM coerce with _ | l
      · rw [hm] at h
        exact absurd h (by simp)
      · rw [hm] at h
        dsimp only at h
        by_cases hl : l.length = 21
        · rw [if_pos hl] at h
          injection h with h
          rw [← h]
          exact hl
        · rw [if_neg hl] at h
          exact absurd h (by simp)

/-- Witness for C8: a 21-entry row is emitted and has length 21. -/
theorem emitted_features_length_witness :
    emitFeats (some (List.replicate 21 (0 : ℚ))) some =
        some (List.replicate 21 (0 : ℚ)) ∧
      (List.replicate 21 (0 : ℚ)).length = 21 :=
  ⟨by rfl, emitted_features_length (some (List.replicate 21 (0 : ℚ))) some
    (List.replicate 21 (0 : ℚ)) (by rfl)⟩

/-- C9: a pairs row is kept exactly when both identifiers are non-empty and
the label parses to a rational truncating (toward zero) to 0 or 1; in
particular the fractional labels 1.9 and 0.5 are kept, truncated to 1 and
0, while an unparseable label or the out-of-range label 2 is dropped. -/
theorem load_pairs_row_spec :
    (∀ (i j : String) (y? : Option ℚ),
      (∃ r, load_pairs_row i j y? = some r) ↔
        (i ≠ "" ∧ j ≠ "" ∧ ∃ q, y? = some q ∧
          (truncInt q = 0 ∨ truncInt q = 1))) ∧
    load_pairs_row "a" "b" (some (19 / 10)) = some ("a", "b", 1) ∧
    load_pairs_row "a" "b" (some (1 / 2)) = some ("a", "b", 0) ∧
    load_pairs_row "a" "b" none = none ∧
    load_pairs_row "a" "b" (some 2) = none := by
  refine ⟨?_, ?_, ?_, by rfl, ?_⟩
  case refine_2 =>
    have h : truncInt (19 / 10) = 1 := by norm_num [truncInt]
    simp [load_pairs_row, h]
  case refine_3 =>
    have h : truncInt (2⁻¹ : ℚ) = 0 := by norm_num [truncInt]
    simp [load_pairs_row, h]
  case refine_4 =>
    have h : truncInt 2 = 2 := by norm_num [truncInt]
    simp [load_pairs_row, h]
  intro i j y?
  constructor
  · rintro ⟨r, hr⟩
    simp only [load_pairs_row] at hr
    by_cases hij : i = "" ∨ j = ""
    · rw [if_pos hij] at hr
      exact absurd hr (by simp)
    · rw [if_neg hij] at hr
      push_neg at hij
      rcases y? with _ | q
      · exact absurd hr (by simp)
      · refine ⟨hij.1, hij.2, q, rfl, ?_⟩
        by_cases hy : truncInt q = 0 ∨ truncInt q = 1
        · exact hy
        · dsimp only at hr
          rw [if_neg hy] at hr
          exact absurd hr (by simp)
  · rintro ⟨hi, hj, q, rfl, hy⟩
    refine ⟨(i, j, truncInt q), ?_⟩
    simp only [load_pairs_row]
    rw [if_neg (by push_neg; exact ⟨hi, hj⟩), if_pos hy]

/-- Witness for C9: the fractional label 1.9 is kept and truncated to 1. -/
theorem load_pairs_row_spec_witness :
    load_pairs_row "a" "b" (some (19 / 10)) = some ("a", "b", 1) :=
  load_pairs_row_spec.2.1

/-- C10: the applicants loader never drops a record for a missing id: a
record with a missing or null id is stored under the literal key "None",
later such records overwrite earlier ones, any record with a non-empty
stringified id and a list features field is stored, and a record is left
out only when its stringified id is empty or its features field is not a
list. -/
theorem load_applicants_none_id :
    (∀ (m : String → Option (List ℝ)) (x : List ℝ),
      loadLine m ⟨none, some x⟩ = fun s => if s = "None" then some x else m s) ∧
    (∀ x1 x2 : List ℝ,
      load_applicants_jsonl [⟨none, some x1⟩, ⟨none, some x2⟩] "None" = some x2) ∧
    (∀ (m : String → Option (List ℝ)) (ln : AppLine) (x : List ℝ),
      ln.features? = some x → idString ln.id? ≠ "" →
      loadLine m ln (idString ln.id?) = some x) ∧
    (∀ (m : String → Option (List ℝ)) (ln : AppLine),
      idString ln.id? = "" ∨ ln.features? = none → loadLine m ln = m) := by
  refine ⟨?_, ?_, ?_, ?_⟩
  · intro m x
    rfl
  · intro x1 x2
    rfl
  · rintro m ⟨id?, feats?⟩ x hx hne
    dsimp only at hx
    subst hx
    simp only [loadLine]
    rw [if_neg hne]
    simp
  · rintro m ⟨id?, feats?⟩ h
    rcases h with h | h
    · dsimp only at h
      rcases feats? with _ | x
      · rfl
      · simp only [loadLine]
        rw [if_pos h]
    · dsimp only at h
      subst h
      rfl

/-- Witness for C10: a record with a present id and list features is stored
under that id. -/
theorem load_applicants_none_id_witness :
    loadLine (fun _ => none) ⟨some "x", some []⟩ "x" = some [] :=
  load_applicants_none_id.2.2.1 (fun _ => none) ⟨some "x", some []⟩ []
    rfl (by decide)

end Ranker
